import Mathlib

/-!
Verification of the event-driven core of the todo backend (Phase-II services):
reminder engine, notification SSE fan-out, audit ingestor, and the recurrence
utility.  Each Python function under inspection is shallowly embedded as an
executable Lean definition; machine state (heaps, registries, buffers) is
passed explicitly.  Library calls are modelled by their documented contracts:
`heapq` push/pop/heapify act on the multiset of queue items with pop/peek
returning a minimal item, SQL upserts act on a list of rows.  Wall-clock
instants are explicit parameters of every function that reads the clock.
-/

namespace Todo

/- ===================================================================
   Reminder offset parsing
   (services/reminder/event_consumer.py, parse_reminder_offset)

   The Python function strips and lowercases its input and then runs the
   anchored regex  (\d+)\s*(hour|hours|hr|hrs|minute|minutes|min|mins|
   day|days|week|weeks|wk|wks)  via re.match, i.e. it matches a prefix of
   the normalized string; the numeric group times the unit gives a
   timedelta.  Durations are represented in whole seconds (Int).
   Maximal-munch modelling of \d+ and \s* is exact here because no unit
   alternative starts with a digit or a whitespace character.
   =================================================================== -/

/-- Python str.strip: drop leading and trailing whitespace characters. -/
def pyStrip (cs : List Char) : List Char :=
  ((cs.dropWhile Char.isWhitespace).reverse.dropWhile Char.isWhitespace).reverse

/-- Python str.lower on the character list. -/
def pyLower (cs : List Char) : List Char :=
  cs.map Char.toLower

/-- Value of the digit group, as Python int() of the matched digits. -/
def digitsToNat (ds : List Char) : Nat :=
  ds.foldl (fun acc c => acc * 10 + (c.toNat - '0'.toNat)) 0

/-- The unit alternation of the regex, in source order, each spelling paired
with the number of seconds of one unit (timedelta of the if/elif chain that
follows the regex in the source). -/
def unitTokens : List (List Char × Int) :=
  [("hour".toList, 3600), ("hours".toList, 3600),
   ("hr".toList, 3600), ("hrs".toList, 3600),
   ("minute".toList, 60), ("minutes".toList, 60),
   ("min".toList, 60), ("mins".toList, 60),
   ("day".toList, 86400), ("days".toList, 86400),
   ("week".toList, 604800), ("weeks".toList, 604800),
   ("wk".toList, 604800), ("wks".toList, 604800)]

/-- Whether the first list is a prefix of the second (the test a regex
alternative performs at the current input position). -/
def isPfx : List Char → List Char → Bool
  | [], _ => true
  | a :: as, bs =>
    match bs with
    | [] => false
    | b :: bs => a == b && isPfx as bs

/-- Regex alternation for the unit group: the first alternative (in source
order) that matches at the current position wins; the if/elif chain then maps
the matched spelling to its duration.  Composition of both steps. -/
def matchUnit (cs : List Char) : Option Int :=
  if isPfx "hour".toList cs then some 3600
  else if isPfx "hours".toList cs then some 3600
  else if isPfx "hr".toList cs then some 3600
  else if isPfx "hrs".toList cs then some 3600
  else if isPfx "minute".toList cs then some 60
  else if isPfx "minutes".toList cs then some 60
  else if isPfx "min".toList cs then some 60
  else if isPfx "mins".toList cs then some 60
  else if isPfx "day".toList cs then some 86400
  else if isPfx "days".toList cs then some 86400
  else if isPfx "week".toList cs then some 604800
  else if isPfx "weeks".toList cs then some 604800
  else if isPfx "wk".toList cs then some 604800
  else if isPfx "wks".toList cs then some 604800
  else none

/-- The regex match on the already stripped and lowercased character list:
a nonempty digit run, then optional whitespace, then a unit alternative.
Returns the parsed timedelta in seconds. -/
def parseNormalized (cs : List Char) : Option Int :=
  let ds := cs.takeWhile Char.isDigit
  let rest := cs.dropWhile Char.isDigit
  if ds.isEmpty then none
  else
    match matchUnit (rest.dropWhile Char.isWhitespace) with
    | none => none
    | some unitSec => some ((digitsToNat ds : Int) * unitSec)

/-- parse_reminder_offset: strip, lowercase, then prefix-match the offset
regex.  The leading falsy-string check of the source is subsumed: an empty
input normalizes to an empty list, which has no digit run. -/
def parse_reminder_offset (s : String) : Option Int :=
  parseNormalized (pyLower (pyStrip s.toList))

/-- Whether the raw string starts with a digit (used to state claim C10). -/
def beginsWithDigit (s : String) : Bool :=
  match s.toList with
  | [] => false
  | c :: _ => c.isDigit

example : parse_reminder_offset "45 mins before due" = some 2700 := by decide
example : parse_reminder_offset "1 week" = some 604800 := by decide
example : parse_reminder_offset "2 HR" = some 7200 := by decide
example : parse_reminder_offset "tomorrow" = none := by decide
example : parse_reminder_offset " 1 hour" = some 3600 := by decide
example : parse_reminder_offset "0 minutes" = some 0 := by decide

/- ===================================================================
   Reminder priority queue
   (services/reminder/priority_queue.py)

   The Python queue is a list manipulated through heapq.  heapq orders
   ReminderItem by trigger_at only (every other dataclass field carries
   compare=False).  The heap layout is a representation detail; per the
   heapq contract, heappush adds an item to the collection, the root that
   peek/heappop observe is a minimal item, and heapify restores the layout
   without changing the collection.  We therefore model the queue as the
   list of its items, with peek/pop selecting an item of minimal
   trigger_at.  Timestamps are seconds (Int); the opaque task_data dict is
   not modelled (no inspected behaviour reads it).
   =================================================================== -/

structure ReminderItem where
  trigger_at : Int
  task_id : String
  user_id : String
  reminder_type : String
deriving DecidableEq

/-- heapq.heappush: add the item to the queue. -/
def heapPush (q : List ReminderItem) (r : ReminderItem) : List ReminderItem :=
  q ++ [r]

/-- The item that the heap root holds: an item with minimal trigger_at
(ReminderPriorityQueue.peek returns it, pop removes it). -/
def heapMinItem : List ReminderItem → Option ReminderItem
  | [] => none
  | r :: rs =>
    match heapMinItem rs with
    | none => some r
    | some m => if m.trigger_at < r.trigger_at then some m else some r

/-- ReminderPriorityQueue.remove: keep only items of other tasks, then
heapify (which leaves the collection unchanged). -/
def queue_remove (task_id : String) (q : List ReminderItem) : List ReminderItem :=
  q.filter (fun r => r.task_id != task_id)

/- ===================================================================
   Reminder event consumer
   (services/reminder/event_consumer.py)
   =================================================================== -/

/-- calculate_trigger_time.  `now` is the datetime.utcnow() read inside the
source function.  The source guard `if not offset_delta` is Python
truthiness: it fires both when parsing failed (None) and when the parsed
timedelta is zero. -/
def calculate_trigger_time (now due_date : Int) (reminder_offset : String) : Option Int :=
  match parse_reminder_offset reminder_offset with
  | none => none
  | some d =>
    if d = 0 then none
    else if due_date - d ≤ now then none
    else some (due_date - d)

/-- The fields handle_task_created_event reads from the CloudEvent data.
due_date is the already-parsed due date; none stands for a missing or empty
due_date string and also for one datetime.fromisoformat rejects (both make
the handler return before scheduling). -/
structure TaskCreatedData where
  task_id : String
  user_id : String
  due_date : Option Int
  reminder_offset : Option String
deriving DecidableEq

/-- handle_task_created_event: schedule a reminder when the task carries a
due date and an offset and the computed trigger lies in the future;
otherwise leave the queue unchanged.  The function is total: the source
wraps the whole body in try/except and never raises. -/
def handle_task_created_event (now : Int) (q : List ReminderItem)
    (d : TaskCreatedData) : List ReminderItem :=
  match d.due_date, d.reminder_offset with
  | some due, some off =>
    match calculate_trigger_time now due off with
    | none => q
    | some t =>
      heapPush q
        { trigger_at := t, task_id := d.task_id, user_id := d.user_id,
          reminder_type := "due_date_reminder" }
  | _, _ => q

/-- handle_task_deleted_event / handle_task_completed_event: both remove
every queued reminder of the task. -/
def handle_task_deleted_event (q : List ReminderItem) (task_id : String) :
    List ReminderItem :=
  queue_remove task_id q

/- ===================================================================
   Reminder scheduler
   (services/reminder/scheduler.py, process_due_reminders)

   The source loop peeks, stops when the queue is empty or the next
   reminder is not yet due, and otherwise pops and publishes.  `now` is
   read once before the loop.  Each pop removes one item, so the loop
   makes at most (queue length) iterations; the fuel argument of the
   auxiliary function carries that bound and never runs out when started
   at the queue length.  Every popped reminder gets a publish call
   (a publish failure only affects the returned counter), so the fired
   list below is exactly the list of publish calls.
   =================================================================== -/

def processAux (now : Int) : Nat → List ReminderItem →
    List ReminderItem × List ReminderItem
  | 0, q => ([], q)
  | fuel + 1, q =>
    match heapMinItem q with
    | none => ([], q)
    | some m =>
      if now < m.trigger_at then ([], q)
      else
        let p := processAux now fuel (q.erase m)
        (m :: p.1, p.2)

/-- process_due_reminders: returns (fired reminders in pop order, remaining
queue). -/
def process_due_reminders (now : Int) (q : List ReminderItem) :
    List ReminderItem × List ReminderItem :=
  processAux now q.length q

/-- Successive ticks of reminder_scheduler_loop: one process_due_reminders
pass per wall-clock instant in the list; returns all fired reminders and
the final queue. -/
def runPasses : List Int → List ReminderItem →
    List ReminderItem × List ReminderItem
  | [], q => ([], q)
  | n :: ns, q =>
    let p := process_due_reminders n q
    let rest := runPasses ns p.2
    (p.1 ++ rest.1, rest.2)

/- ===================================================================
   Reminder snapshot persistence
   (services/reminder/priority_queue.py, save_reminders_to_db)

   The snapshot deletes rows with status pending, then runs one INSERT ..
   ON CONFLICT (task_id) DO UPDATE per queued reminder.  The table is
   modelled as a list of rows; the upsert updates trigger_at and
   reminder_type of an existing row with the same task_id and otherwise
   appends a fresh pending row.  The generated reminder_id and the
   updated_at column are not modelled (nothing inspected reads them).
   =================================================================== -/

structure ReminderRow where
  task_id : String
  user_id : String
  trigger_at : Int
  reminder_type : String
  status : String
deriving DecidableEq

def upsertReminder (db : List ReminderRow) (r : ReminderItem) : List ReminderRow :=
  if db.any (fun row => row.task_id == r.task_id) then
    db.map (fun row =>
      if row.task_id == r.task_id then
        { row with trigger_at := r.trigger_at, reminder_type := r.reminder_type }
      else row)
  else
    db ++ [{ task_id := r.task_id, user_id := r.user_id,
             trigger_at := r.trigger_at, reminder_type := r.reminder_type,
             status := "pending" }]

/-- save_reminders_to_db: with an empty queue the function returns before
touching the table; otherwise it deletes the pending rows and upserts every
queued reminder inside one transaction. -/
def save_reminders_to_db (db : List ReminderRow) (q : List ReminderItem) :
    List ReminderRow :=
  if q.isEmpty then db
  else q.foldl upsertReminder (db.filter (fun row => row.status != "pending"))

/- ===================================================================
   Audit ingestor
   (services/audit_logger/storage.py, services/audit_logger/event_consumer.py)

   Timestamps and dates carry the calendar fields the inspected code
   reads (year, month, day, time of day).  The task_events table is a
   list of rows; INSERT .. ON CONFLICT (event_id) DO NOTHING appends a
   row unless one with the same event_id already exists.
   =================================================================== -/

structure PyDateTime where
  year : Int
  month : Int
  day : Int
  hour : Int
  minute : Int
  second : Int
deriving DecidableEq

structure PyDate where
  year : Int
  month : Int
  day : Int
deriving DecidableEq

/-- Ordering used by ORDER BY timestamp ASC (lexicographic on the calendar
fields). -/
def PyDateTime.leb (a b : PyDateTime) : Bool :=
  if a.year != b.year then a.year < b.year
  else if a.month != b.month then a.month < b.month
  else if a.day != b.day then a.day < b.day
  else if a.hour != b.hour then a.hour < b.hour
  else if a.minute != b.minute then a.minute < b.minute
  else a.second ≤ b.second

/-- First day of the month of a timestamp (the partition-key function of
the spec). -/
def first_of_month (t : PyDateTime) : PyDate :=
  { year := t.year, month := t.month, day := 1 }

structure AuditRow where
  event_id : String
  event_type : String
  task_id : String
  user_id : String
  timestamp : PyDateTime
  payload : String
  correlation_id : Option String
  partition_key : PyDate
deriving DecidableEq

/-- The record AuditLogStorage.write_event buffers.  `now` is the
datetime.utcnow() the source reads at the top of the function: both the
stored timestamp column and the partition key come from it (the source
computes date(timestamp.year, timestamp.month, 1)). -/
def writeEventRow (now : PyDateTime) (event_id event_type task_id user_id payload : String)
    (correlation_id : Option String) : AuditRow :=
  { event_id := event_id, event_type := event_type, task_id := task_id,
    user_id := user_id, timestamp := now, payload := payload,
    correlation_id := correlation_id,
    partition_key := { year := now.year, month := now.month, day := 1 } }

/-- The event envelope fields the audit consumer extracts.  `timestamp` is
the producer-stamped occurred-at carried on the wire; the consumer reads it
into a local variable and never forwards it to write_event. -/
structure TaskEventEnvelope where
  event_id : String
  task_id : String
  user_id : String
  timestamp : PyDateTime
  payload : String
  correlation_id : Option String
deriving DecidableEq

/-- audit handle_task_created_event composed with write_event: the row that
ends up in the buffer for a task.created envelope ingested at wall-clock
`now`. -/
def auditRowOfCreated (now : PyDateTime) (env : TaskEventEnvelope) : AuditRow :=
  writeEventRow now env.event_id "task.created" env.task_id env.user_id
    env.payload env.correlation_id

/-- One INSERT .. ON CONFLICT (event_id) DO NOTHING. -/
def insertDedup (db : List AuditRow) (r : AuditRow) : List AuditRow :=
  if db.any (fun x => x.event_id == r.event_id) then db else db ++ [r]

structure AuditState where
  buffer : List AuditRow
  db : List AuditRow
deriving DecidableEq

/-- AuditLogStorage.flush: drain the buffer and insert every drained row
with the dedup upsert, all inside one transaction. -/
def audit_flush (st : AuditState) : AuditState :=
  { buffer := [], db := st.buffer.foldl insertDedup st.db }

/-- AuditLogStorage.write_event: enrich, append to the buffer, and flush
when the buffer reached BATCH_SIZE (100). -/
def audit_write_event (st : AuditState) (now : PyDateTime)
    (event_id event_type task_id user_id payload : String)
    (correlation_id : Option String) : AuditState :=
  let st' := { st with
    buffer := st.buffer ++
      [writeEventRow now event_id event_type task_id user_id payload correlation_id] }
  if 100 ≤ st'.buffer.length then audit_flush st' else st'

/-- The operations that drive the ingestor: an event delivery (buffered via
write_event, possibly auto-flushing) or a tick of the 1 s flush loop /
shutdown flush. -/
inductive AuditOp where
  | deliver (now : PyDateTime) (event_id event_type task_id user_id payload : String)
      (correlation_id : Option String)
  | flushTick
deriving DecidableEq

def auditStep (st : AuditState) : AuditOp → AuditState
  | .deliver now eid ety tid uid pl cid =>
      audit_write_event st now eid ety tid uid pl cid
  | .flushTick => audit_flush st

/-- The ingestor state after a sequence of deliveries and flushes, starting
from the empty buffer and empty store. -/
def runAudit (ops : List AuditOp) : AuditState :=
  ops.foldl auditStep { buffer := [], db := [] }

/-- AuditLogStorage.get_task_events: rows of the task, ordered by the
timestamp column ascending, first `limit` rows. -/
def get_task_events (db : List AuditRow) (task_id : String) (limit : Nat) :
    List AuditRow :=
  ((db.filter (fun r => r.task_id == task_id)).mergeSort
    (fun a b => a.timestamp.leb b.timestamp)).take limit

/- ===================================================================
   Notification SSE registry
   (services/notification/sse_handler.py, NotificationManager;
    services/notification/main.py, notification_stream)

   The registry is a dict owner-id -> set of connection objects.
   Connection objects are distinguished by identity; we name them with
   Nat handles issued by a counter.  The registry is an association list
   keyed by owner. -/

abbrev Registry := List (String × List Nat)

/-- Dictionary lookup of the owner's connection set (empty when absent). -/
def regGet (reg : Registry) (o : String) : List Nat :=
  match reg with
  | [] => []
  | (k, v) :: t => if k == o then v else regGet t o

/-- Dictionary membership test (`user_id in self._connections`). -/
def regHas (reg : Registry) (o : String) : Bool :=
  match reg with
  | [] => false
  | (k, _) :: t => k == o || regHas t o

/-- Dictionary write of the owner's connection set. -/
def regSet (reg : Registry) (o : String) (l : List Nat) : Registry :=
  match reg with
  | [] => [(o, l)]
  | (k, v) :: t => if k == o then (o, l) :: t else (k, v) :: regSet t o l

/-- Dictionary key deletion (`del self._connections[user_id]`). -/
def regDel (reg : Registry) (o : String) : Registry :=
  match reg with
  | [] => []
  | (k, v) :: t => if k == o then regDel t o else (k, v) :: regDel t o

/-- NotificationManager.register_connection: initialize the owner entry if
absent, raise ValueError when the owner already holds 3 connections, else
create a connection and add it to the owner set.  The ValueError is the
error case here; cid is the fresh connection handle. -/
def register_connection (reg : Registry) (nextId : Nat) (o : String) :
    Except String (Registry × Nat) :=
  let conns := regGet reg o
  if 3 ≤ conns.length then
    .error "too many connections"
  else
    .ok (regSet reg o (conns ++ [nextId]), nextId)

/-- NotificationManager.unregister_connection: discard the connection and
drop the owner entry once empty; a no-op for unknown owners. -/
def unregister_connection (reg : Registry) (o : String) (cid : Nat) : Registry :=
  if regHas reg o then
    let l := (regGet reg o).erase cid
    if l.isEmpty then regDel reg o else regSet reg o l
  else reg

/-- The stream endpoint notification_stream surfaces a register_connection
ValueError as HTTP 429 and otherwise streams on the new connection. -/
def notification_stream (reg : Registry) (nextId : Nat) (o : String) :
    Except Nat (Registry × Nat) :=
  match register_connection reg nextId o with
  | .error _ => .error 429
  | .ok x => .ok x

inductive SSEOp where
  | reg (o : String)
  | unreg (o : String) (cid : Nat)
deriving DecidableEq

/-- Registry evolution: a rejected registration (429) leaves the registry
unchanged; a successful one consumes a fresh handle. -/
def sseStep (st : Registry × Nat) : SSEOp → Registry × Nat
  | .reg o =>
    match register_connection st.1 st.2 o with
    | .error _ => st
    | .ok (reg', _) => (reg', st.2 + 1)
  | .unreg o cid => (unregister_connection st.1 o cid, st.2)

def runSSE (ops : List SSEOp) : Registry × Nat :=
  ops.foldl sseStep ([], 0)

/- ===================================================================
   SSE per-connection rate limiting
   (services/notification/sse_handler.py, SSEConnection.can_send_message,
    SSEConnection.record_message, NotificationManager.send_notification)

   time.time() instants are modelled as rationals.  The rate_limiter
   deque(maxlen=10) is the list of recorded delivery instants, oldest
   first; the bounded append drops the oldest entry when the deque is
   full.  can_send_message first pops expired entries (now - t > 1.0)
   from the left, then refuses when 10 remain.
   =================================================================== -/

/-- The popleft loop of can_send_message. -/
def purgeWindow (now : ℚ) : List ℚ → List ℚ
  | [] => []
  | t :: ts => if 1 < now - t then purgeWindow now ts else t :: ts

/-- deque(maxlen=10).append: keep the most recent 10 entries. -/
def recordAppend (l : List ℚ) (now : ℚ) : List ℚ :=
  let l' := l ++ [now]
  l'.drop (l'.length - 10)

/-- can_send_message followed (on success) by record_message, returning the
updated deque and whether the message may be sent.  The purge mutates the
deque in place, so it persists also on refusal. -/
def attemptSend (l : List ℚ) (now : ℚ) : List ℚ × Bool :=
  let p := purgeWindow now l
  if 10 ≤ p.length then (p, false) else (recordAppend p now, true)

/-- Timestamps delivered on one connection when send_notification targets
it at each instant of the list, threading the deque; returns the final
deque and the delivered instants. -/
def runAttempts : List ℚ → List ℚ → List ℚ × List ℚ
  | l, [] => (l, [])
  | l, t :: ts =>
    let a := attemptSend l t
    let rest := runAttempts a.1 ts
    (rest.1, if a.2 then t :: rest.2 else rest.2)

/-- Number of delivered instants inside the closed 1-second window ending
at w (the entries can_send_message counts as within the last second). -/
def windowCount (w : ℚ) (ds : List ℚ) : Nat :=
  ds.countP (fun s => decide (w - 1 ≤ s ∧ s ≤ w))

/-- One SSE connection as send_notification sees it: the outbound
asyncio.Queue, the rate limiter deque, and the sent counter. -/
structure SSEConnState where
  queue : List String
  rate_limiter : List ℚ
  message_count : Nat
deriving DecidableEq

/-- NotificationManager.send_notification over the owner connections: for
each connection check the rate limit, on success enqueue the notification
and record the send; returns the updated connections and the number of
connections notified. -/
def send_notification (now : ℚ) (notif : String) :
    List SSEConnState → List SSEConnState × Nat
  | [] => ([], 0)
  | c :: cs =>
    let a := attemptSend c.rate_limiter now
    let c' :=
      if a.2 then
        { c with queue := c.queue ++ [notif], rate_limiter := a.1,
                 message_count := c.message_count + 1 }
      else { c with rate_limiter := a.1 }
    let rest := send_notification now notif cs
    (c' :: rest.1, (if a.2 then 1 else 0) + rest.2)

/- ===================================================================
   Recurrence utility
   (backend/src/utils/recurrence.py, calculate_next_occurrence,
    monthly branch with an explicit pattern.dates list)
   =================================================================== -/

/-- Gregorian leap year (calendar.isleap). -/
def isLeapYear (y : Int) : Bool :=
  y % 4 == 0 && (y % 100 != 0 || y % 400 == 0)

/-- calendar.monthrange(y, m)[1]: number of days of the month. -/
def daysInMonth (y m : Int) : Int :=
  if m == 2 then (if isLeapYear y then 29 else 28)
  else if m == 4 || m == 6 || m == 9 || m == 11 then 30
  else 31

/-- Target selection of the monthly branch: the first listed day-of-month
strictly after the current day keeps the current month; otherwise the first
listed day of the next month (wrapping December).  pattern.dates is d0 ::
ds, sorted ascending by parse_recurrence_pattern. -/
def monthlySelect (fd : PyDateTime) (d0 : Int) (ds : List Int) :
    Int × Int × Int :=
  match (d0 :: ds).find? (fun x => decide (fd.day < x)) with
  | some t => (fd.year, fd.month, t)
  | none =>
    if 12 < fd.month + 1 then (fd.year + 1, 1, d0)
    else (fd.year, fd.month + 1, d0)

/-- The selected day before clamping. -/
def monthlyTargetDay (fd : PyDateTime) (d0 : Int) (ds : List Int) : Int :=
  (monthlySelect fd d0 ds).2.2

/-- calculate_next_occurrence, monthly pattern with dates d0 :: ds: select
the target, clamp it with min to the length of the target month, and
rebuild the datetime with the time of day zeroed (the .replace call). -/
def calculate_next_occurrence_monthly (fd : PyDateTime) (d0 : Int)
    (ds : List Int) : PyDateTime :=
  let sel := monthlySelect fd d0 ds
  let maxDay := daysInMonth sel.1 sel.2.1
  { year := sel.1, month := sel.2.1, day := min sel.2.2 maxDay,
    hour := 0, minute := 0, second := 0 }

example :
    calculate_next_occurrence_monthly
      { year := 2025, month := 1, day := 31, hour := 9, minute := 30, second := 0 }
      31 [] =
    { year := 2025, month := 2, day := 28, hour := 0, minute := 0, second := 0 } := by
  decide

example :
    calculate_next_occurrence_monthly
      { year := 2024, month := 1, day := 31, hour := 0, minute := 0, second := 0 }
      31 [] =
    { year := 2024, month := 2, day := 29, hour := 0, minute := 0, second := 0 } := by
  decide

/- ===================================================================
   Claim C2 (partition key)
   =================================================================== -/

/-- C2 counterexample: the claim states that the buffered record's
partition-key is the first day of the month of the producer-stamped
occurred-at carried in the envelope.  For an envelope stamped 2025-03-10
that is ingested at wall-clock 2025-04-02, write_event computes the
partition key from datetime.utcnow() and stores 2025-04-01, not
2025-03-01. -/
theorem c2_counterexample :
    (auditRowOfCreated
        { year := 2025, month := 4, day := 2, hour := 9, minute := 0, second := 0 }
        { event_id := "E1", task_id := "T1", user_id := "U1",
          timestamp := { year := 2025, month := 3, day := 10,
                         hour := 0, minute := 0, second := 0 },
          payload := "p", correlation_id := none }).partition_key ≠
      first_of_month
        { year := 2025, month := 3, day := 10, hour := 0, minute := 0, second := 0 } := by
  decide

/-- C2 amended: the buffered record's partition-key equals the first day of
the month of the ingestion wall-clock timestamp (the datetime.utcnow() read
inside write_event), which coincides with the first of the month of the
envelope's occurred-at exactly when the event is ingested in the same
calendar month as it occurred. -/
theorem c2_partition_key_ingestion_month (now : PyDateTime) (env : TaskEventEnvelope) :
    (auditRowOfCreated now env).partition_key = first_of_month now ∧
    ((auditRowOfCreated now env).partition_key = first_of_month env.timestamp ↔
      env.timestamp.year = now.year ∧ env.timestamp.month = now.month) := by
  constructor
  · rfl
  · constructor
    · intro h
      have h' := congrArg PyDate.year h
      have h'' := congrArg PyDate.month h
      simp [auditRowOfCreated, writeEventRow, first_of_month] at h' h''
      exact ⟨h'.symm, h''.symm⟩
    · intro ⟨hy, hm⟩
      simp [auditRowOfCreated, writeEventRow, first_of_month, hy, hm]

/- ===================================================================
   Claim C9 (monthly clamping)
   =================================================================== -/

/-- C9: the monthly branch clamps a selected day-of-month that exceeds the
target month's length down to the last valid day of that month; for the
pattern monthly:31 (dates = [31]), any occurrence computed to fall in
February has day 28, or 29 in leap years. -/
theorem c9_monthly_clamps_to_month_end :
    (∀ (fd : PyDateTime) (d0 : Int) (ds : List Int),
      daysInMonth (calculate_next_occurrence_monthly fd d0 ds).year
          (calculate_next_occurrence_monthly fd d0 ds).month <
        monthlyTargetDay fd d0 ds →
      (calculate_next_occurrence_monthly fd d0 ds).day =
        daysInMonth (calculate_next_occurrence_monthly fd d0 ds).year
          (calculate_next_occurrence_monthly fd d0 ds).month) ∧
    (∀ fd : PyDateTime,
      (calculate_next_occurrence_monthly fd 31 []).month = 2 →
      (calculate_next_occurrence_monthly fd 31 []).day =
        if isLeapYear (calculate_next_occurrence_monthly fd 31 []).year
        then 29 else 28) := by
  constructor
  · intro fd d0 ds h
    exact min_eq_right (le_of_lt h)
  · intro fd h2
    have htd : (monthlySelect fd 31 []).2.2 = 31 := by
      unfold monthlySelect
      cases hf : List.find? (fun x => decide (fd.day < x)) [31] with
      | none =>
        by_cases hw : 12 < fd.month + 1 <;> simp [hw]
      | some t =>
        have ht : t ∈ [31] := List.mem_of_find?_eq_some hf
        simp at ht
        simp [ht]
    have hm2 : (monthlySelect fd 31 []).2.1 = 2 := h2
    show min (monthlySelect fd 31 []).2.2
        (daysInMonth (monthlySelect fd 31 []).1 (monthlySelect fd 31 []).2.1) =
      if isLeapYear (monthlySelect fd 31 []).1 then 29 else 28
    rw [htd, hm2]
    by_cases hl : isLeapYear (monthlySelect fd 31 []).1 <;>
      simp [daysInMonth, hl]

/-- C9 witness: from 2025-01-31 the pattern monthly:31 lands in February
2025, whose length 28 is below the target 31, and the clamp yields
February 28. -/
theorem c9_witness :
    (calculate_next_occurrence_monthly
        { year := 2025, month := 1, day := 31, hour := 9, minute := 30, second := 0 }
        31 []).day = 28 := by
  have h1 := c9_monthly_clamps_to_month_end.1
    { year := 2025, month := 1, day := 31, hour := 9, minute := 30, second := 0 }
    31 [] (by decide)
  have h2 := c9_monthly_clamps_to_month_end.2
    { year := 2025, month := 1, day := 31, hour := 9, minute := 30, second := 0 }
    (by decide)
  simpa using h2

/- ===================================================================
   Heap lemmas and scheduler lemmas (for C5, C6, C7, C8)
   =================================================================== -/

lemma heapMinItem_cons_none {r : ReminderItem} {rs : List ReminderItem}
    (hm : heapMinItem rs = none) : heapMinItem (r :: rs) = some r := by
  simp [heapMinItem, hm]

lemma heapMinItem_cons_some {r m' : ReminderItem} {rs : List ReminderItem}
    (hm : heapMinItem rs = some m') :
    heapMinItem (r :: rs) =
      if m'.trigger_at < r.trigger_at then some m' else some r := by
  simp [heapMinItem, hm]

lemma heapMinItem_eq_none {q : List ReminderItem} (h : heapMinItem q = none) :
    q = [] := by
  cases q with
  | nil => rfl
  | cons r rs =>
    exfalso
    cases hm : heapMinItem rs with
    | none => rw [heapMinItem_cons_none hm] at h; exact Option.noConfusion h
    | some m' =>
      rw [heapMinItem_cons_some hm] at h
      by_cases hlt : m'.trigger_at < r.trigger_at
      · rw [if_pos hlt] at h; exact Option.noConfusion h
      · rw [if_neg hlt] at h; exact Option.noConfusion h

lemma heapMinItem_mem : ∀ {q : List ReminderItem} {m : ReminderItem},
    heapMinItem q = some m → m ∈ q := by
  intro q
  induction q with
  | nil => intro m h; exact Option.noConfusion h
  | cons r rs ih =>
    intro m h
    cases hm : heapMinItem rs with
    | none =>
      rw [heapMinItem_cons_none hm, Option.some_inj] at h
      rw [← h]
      exact List.mem_cons_self r rs
    | some m' =>
      rw [heapMinItem_cons_some hm] at h
      by_cases hlt : m'.trigger_at < r.trigger_at
      · rw [if_pos hlt, Option.some_inj] at h
        exact List.mem_cons_of_mem _ (h ▸ ih hm)
      · rw [if_neg hlt, Option.some_inj] at h
        rw [← h]
        exact List.mem_cons_self r rs

lemma heapMinItem_le : ∀ {q : List ReminderItem} {m : ReminderItem},
    heapMinItem q = some m → ∀ r ∈ q, m.trigger_at ≤ r.trigger_at := by
  intro q
  induction q with
  | nil => intro m h; exact Option.noConfusion h
  | cons r rs ih =>
    intro m h x hx
    cases hm : heapMinItem rs with
    | none =>
      rw [heapMinItem_cons_none hm, Option.some_inj] at h
      have hrs : rs = [] := heapMinItem_eq_none hm
      subst hrs
      rw [List.mem_singleton] at hx
      subst hx
      rw [← h]
    | some m' =>
      rw [heapMinItem_cons_some hm] at h
      by_cases hlt : m'.trigger_at < r.trigger_at
      · rw [if_pos hlt, Option.some_inj] at h
        subst h
        rcases List.mem_cons.1 hx with rfl | hx'
        · exact le_of_lt hlt
        · exact ih hm x hx'
      · rw [if_neg hlt, Option.some_inj] at h
        subst h
        rcases List.mem_cons.1 hx with rfl | hx'
        · exact le_refl _
        · exact le_trans (not_lt.1 hlt) (ih hm x hx')

lemma processAux_succ_none {now : Int} {fuel : Nat} {q : List ReminderItem}
    (hm : heapMinItem q = none) : processAux now (fuel + 1) q = ([], q) := by
  simp [processAux, hm]

lemma processAux_succ_some {now : Int} {fuel : Nat} {q : List ReminderItem}
    {m : ReminderItem} (hm : heapMinItem q = some m) :
    processAux now (fuel + 1) q =
      if now < m.trigger_at then ([], q)
      else (m :: (processAux now fuel (q.erase m)).1,
            (processAux now fuel (q.erase m)).2) := by
  simp [processAux, hm]

lemma processAux_spec (now : Int) :
    ∀ (fuel : Nat) (q : List ReminderItem),
      (∀ r ∈ (processAux now fuel q).1, r.trigger_at ≤ now) ∧
      (∀ r ∈ (processAux now fuel q).1, r ∈ q) ∧
      (∀ r ∈ (processAux now fuel q).2, r ∈ q) ∧
      (∀ r ∈ q, now < r.trigger_at → r ∈ (processAux now fuel q).2) := by
  intro fuel
  induction fuel with
  | zero =>
    intro q
    exact ⟨fun r hr => absurd hr (List.not_mem_nil r),
           fun r hr => absurd hr (List.not_mem_nil r),
           fun r hr => hr, fun r hr _ => hr⟩
  | succ fuel ih =>
    intro q
    cases hm : heapMinItem q with
    | none =>
      rw [processAux_succ_none hm]
      exact ⟨fun r hr => absurd hr (List.not_mem_nil r),
             fun r hr => absurd hr (List.not_mem_nil r),
             fun r hr => hr, fun r hr _ => hr⟩
    | some m =>
      rw [processAux_succ_some hm]
      by_cases hc : now < m.trigger_at
      · rw [if_pos hc]
        exact ⟨fun r hr => absurd hr (List.not_mem_nil r),
               fun r hr => absurd hr (List.not_mem_nil r),
               fun r hr => hr, fun r hr _ => hr⟩
      · rw [if_neg hc]
        obtain ⟨ih1, ih2, ih3, ih4⟩ := ih (q.erase m)
        refine ⟨?_, ?_, ?_, ?_⟩
        · intro r hr
          rcases List.mem_cons.1 hr with rfl | hr'
          · exact not_lt.1 hc
          · exact ih1 r hr'
        · intro r hr
          rcases List.mem_cons.1 hr with rfl | hr'
          · exact heapMinItem_mem hm
          · exact List.mem_of_mem_erase (ih2 r hr')
        · intro r hr
          exact List.mem_of_mem_erase (ih3 r hr)
        · intro r hr hlt
          have hne : r ≠ m := by
            intro heq
            rw [heq] at hlt
            exact hc hlt
          exact ih4 r ((List.mem_erase_of_ne hne).2 hr) hlt

/-- C6: a firing pass publishes only reminders that are due at the
wall-clock instant the pass observed, and every reminder whose trigger
lies in the future survives the pass in the heap. -/
theorem c6_fires_only_due (now : Int) (q : List ReminderItem) :
    (∀ r ∈ (process_due_reminders now q).1, r.trigger_at ≤ now) ∧
    (∀ r ∈ q, now < r.trigger_at → r ∈ (process_due_reminders now q).2) := by
  obtain ⟨h1, _, _, h4⟩ := processAux_spec now q.length q
  exact ⟨h1, h4⟩

/-- C6 witness: at wall clock 10, a reminder due at 5 fires and a reminder
due at 100 remains queued. -/
theorem c6_witness :
    (5 : Int) ≤ 10 ∧
    ({ trigger_at := 100, task_id := "B", user_id := "U",
       reminder_type := "due_date_reminder" } : ReminderItem) ∈
      (process_due_reminders 10
        [{ trigger_at := 5, task_id := "A", user_id := "U",
           reminder_type := "due_date_reminder" },
         { trigger_at := 100, task_id := "B", user_id := "U",
           reminder_type := "due_date_reminder" }]).2 := by
  refine ⟨?_, ?_⟩
  · exact (c6_fires_only_due 10
      [{ trigger_at := 5, task_id := "A", user_id := "U",
         reminder_type := "due_date_reminder" },
       { trigger_at := 100, task_id := "B", user_id := "U",
         reminder_type := "due_date_reminder" }]).1
      { trigger_at := 5, task_id := "A", user_id := "U",
        reminder_type := "due_date_reminder" } (by decide)
  · exact (c6_fires_only_due 10
      [{ trigger_at := 5, task_id := "A", user_id := "U",
         reminder_type := "due_date_reminder" },
       { trigger_at := 100, task_id := "B", user_id := "U",
         reminder_type := "due_date_reminder" }]).2
      { trigger_at := 100, task_id := "B", user_id := "U",
        reminder_type := "due_date_reminder" } (by decide) (by decide)

lemma runPasses_keeps_no_task (tid : String) :
    ∀ (nows : List Int) (q : List ReminderItem),
      (∀ r ∈ q, r.task_id ≠ tid) →
      ∀ r ∈ (runPasses nows q).1, r.task_id ≠ tid := by
  intro nows
  induction nows with
  | nil => intro q hq r hr; simp [runPasses] at hr
  | cons n ns ih =>
    intro q hq r hr
    simp only [runPasses, List.mem_append] at hr
    rcases hr with hr | hr
    · exact hq r ((processAux_spec n q.length q).2.1 r hr)
    · exact ih (process_due_reminders n q).2
        (fun x hx => hq x ((processAux_spec n q.length q).2.2.1 x hx)) r hr

/-- C7: handling task.deleted (or task.completed) removes every heap entry
of that task, keeps every entry of any other task with its multiplicity
unchanged, and no later firing pass ever publishes a reminder for the
deleted task. -/
theorem c7_delete_removes_task (q : List ReminderItem) (tid : String) :
    (∀ r ∈ handle_task_deleted_event q tid, r.task_id ≠ tid) ∧
    (∀ r : ReminderItem, r.task_id ≠ tid →
      (handle_task_deleted_event q tid).count r = q.count r) ∧
    (∀ (nows : List Int),
      ∀ r ∈ (runPasses nows (handle_task_deleted_event q tid)).1,
        r.task_id ≠ tid) := by
  refine ⟨?_, ?_, ?_⟩
  · intro r hr
    have := List.of_mem_filter hr
    simpa using this
  · intro r hr
    unfold handle_task_deleted_event queue_remove
    induction q with
    | nil => rfl
    | cons x xs ihx =>
      by_cases hx : x.task_id = tid
      · have hxr : x ≠ r := by
          intro heq
          rw [heq] at hx
          exact hr hx
        simp [List.filter_cons, hx, List.count_cons, ihx,
          Ne.symm hxr]
      · simp [List.filter_cons, hx, List.count_cons, ihx]
  · intro nows r hr
    refine runPasses_keeps_no_task tid nows _ ?_ r hr
    intro x hx
    have := List.of_mem_filter hx
    simpa using this

/-- C7 witness: deleting task T1 from a heap holding T1 and T2 leaves only
the T2 entry, keeps its multiplicity, and a later pass at time 200 fires no
T1 reminder. -/
theorem c7_witness :
    (({ trigger_at := 100, task_id := "T2", user_id := "U",
        reminder_type := "due_date_reminder" } : ReminderItem).task_id ≠ "T1") ∧
    (handle_task_deleted_event
        [{ trigger_at := 5, task_id := "T1", user_id := "U",
           reminder_type := "due_date_reminder" },
         { trigger_at := 100, task_id := "T2", user_id := "U",
           reminder_type := "due_date_reminder" }] "T1").count
      { trigger_at := 100, task_id := "T2", user_id := "U",
        reminder_type := "due_date_reminder" } =
      ([{ trigger_at := 5, task_id := "T1", user_id := "U",
          reminder_type := "due_date_reminder" },
        { trigger_at := 100, task_id := "T2", user_id := "U",
          reminder_type := "due_date_reminder" }] : List ReminderItem).count
        { trigger_at := 100, task_id := "T2", user_id := "U",
          reminder_type := "due_date_reminder" } := by
  constructor
  · exact (c7_delete_removes_task
      [{ trigger_at := 5, task_id := "T1", user_id := "U",
         reminder_type := "due_date_reminder" },
       { trigger_at := 100, task_id := "T2", user_id := "U",
         reminder_type := "due_date_reminder" }] "T1").1
      { trigger_at := 100, task_id := "T2", user_id := "U",
        reminder_type := "due_date_reminder" } (by decide)
  · exact (c7_delete_removes_task
      [{ trigger_at := 5, task_id := "T1", user_id := "U",
         reminder_type := "due_date_reminder" },
       { trigger_at := 100, task_id := "T2", user_id := "U",
         reminder_type := "due_date_reminder" }] "T1").2.1
      { trigger_at := 100, task_id := "T2", user_id := "U",
        reminder_type := "due_date_reminder" } (by decide)

/- ===================================================================
   Claim C8 (task.created scheduling)
   =================================================================== -/

/-- C8 counterexample: the claim states that whenever the offset parses and
the computed trigger due − offset exceeds now, a reminder is inserted.  At
now = 0 with due = 1000 and offset "0 minutes", the offset parses (to the
zero duration) and due − offset = 1000 > 0, yet the handler inserts
nothing: the `if not offset_delta` truthiness guard of
calculate_trigger_time treats the parsed zero timedelta like a parse
failure. -/
theorem c8_counterexample :
    parse_reminder_offset "0 minutes" = some 0 ∧
    (0 : Int) < 1000 - 0 ∧
    handle_task_created_event 0 []
      { task_id := "T1", user_id := "U1", due_date := some 1000,
        reminder_offset := some "0 minutes" } = [] := by
  refine ⟨by decide, by decide, ?_⟩
  decide

/-- C8 amended: on task.created with a due date and an offset string, no
reminder is scheduled when the offset fails to parse, parses to a zero
duration, or yields a trigger due − offset ≤ now; when the offset parses to
a nonzero duration and due − offset > now, exactly one reminder with that
trigger is pushed.  The handler is total, so no error can escape it. -/
theorem c8_trigger_in_future_schedules (now : Int) (q : List ReminderItem)
    (d : TaskCreatedData) (due : Int) (off : String)
    (hdd : d.due_date = some due) (hoff : d.reminder_offset = some off) :
    (parse_reminder_offset off = none → handle_task_created_event now q d = q) ∧
    (∀ k, parse_reminder_offset off = some k →
      ((k = 0 ∨ due - k ≤ now) → handle_task_created_event now q d = q) ∧
      (k ≠ 0 → now < due - k →
        handle_task_created_event now q d =
          heapPush q { trigger_at := due - k, task_id := d.task_id,
                       user_id := d.user_id,
                       reminder_type := "due_date_reminder" })) := by
  constructor
  · intro hp
    simp [handle_task_created_event, hdd, hoff, calculate_trigger_time, hp]
  · intro k hp
    constructor
    · rintro (rfl | hle)
      · simp [handle_task_created_event, hdd, hoff, calculate_trigger_time, hp]
      · by_cases hk : k = 0
        · simp [handle_task_created_event, hdd, hoff, calculate_trigger_time, hp, hk]
        · simp [handle_task_created_event, hdd, hoff, calculate_trigger_time, hp, hk, hle]
    · intro hk hlt
      simp [handle_task_created_event, hdd, hoff, calculate_trigger_time, hp, hk,
        not_le.2 hlt]

/-- C8 witness: due 7200 with offset "1 hour" at now = 0 schedules the
trigger 3600; offset "soon" fails to parse and schedules nothing. -/
theorem c8_witness :
    handle_task_created_event 0 []
      { task_id := "T1", user_id := "U1", due_date := some 7200,
        reminder_offset := some "1 hour" } =
      [{ trigger_at := 3600, task_id := "T1", user_id := "U1",
         reminder_type := "due_date_reminder" }] ∧
    handle_task_created_event 0 []
      { task_id := "T1", user_id := "U1", due_date := some 7200,
        reminder_offset := some "soon" } = [] := by
  constructor
  · have h := ((c8_trigger_in_future_schedules 0 []
      { task_id := "T1", user_id := "U1", due_date := some 7200,
        reminder_offset := some "1 hour" } 7200 "1 hour" rfl rfl).2 3600
      (by decide)).2 (by decide) (by decide)
    simpa [heapPush] using h
  · exact (c8_trigger_in_future_schedules 0 []
      { task_id := "T1", user_id := "U1", due_date := some 7200,
        reminder_offset := some "soon" } 7200 "soon" rfl rfl).1 (by decide)

/- ===================================================================
   Claim C5 (at most one pending reminder per task)
   =================================================================== -/

/-- C5, the failing input: two deliveries of the same task.created event
(the broker is at-least-once and the module docstring itself promises
idempotent event handling).  ReminderPriorityQueue.add pushes without any
per-task deduplication, so after the duplicate delivery the heap holds two
pending entries for task T1, while the persisted snapshot — whose upsert
conflicts on task_id — holds exactly one pending row for T1. -/
theorem c5_duplicate_delivery_breaks_uniqueness :
    (handle_task_created_event 0
        (handle_task_created_event 0 []
          { task_id := "T1", user_id := "U1", due_date := some 7200,
            reminder_offset := some "1 hour" })
        { task_id := "T1", user_id := "U1", due_date := some 7200,
          reminder_offset := some "1 hour" }).countP
        (fun r => r.task_id == "T1") = 2 ∧
    (save_reminders_to_db []
        (handle_task_created_event 0
          (handle_task_created_event 0 []
            { task_id := "T1", user_id := "U1", due_date := some 7200,
              reminder_offset := some "1 hour" })
          { task_id := "T1", user_id := "U1", due_date := some 7200,
            reminder_offset := some "1 hour" })).countP
        (fun row => row.task_id == "T1" && row.status == "pending") = 1 := by
  constructor
  · decide
  · decide

/- ===================================================================
   Registry lemmas and claim C3
   =================================================================== -/

lemma regGet_regSet_self (reg : Registry) (o : String) (l : List Nat) :
    regGet (regSet reg o l) o = l := by
  induction reg with
  | nil => simp [regSet, regGet]
  | cons p t ih =>
    obtain ⟨k, v⟩ := p
    by_cases h : k = o
    · subst h
      simp [regSet, regGet]
    · have hb : (k == o) = false := by simpa using h
      simp [regSet, regGet, hb, ih]

lemma regGet_regSet_other (reg : Registry) (o o' : String) (l : List Nat)
    (h : o' ≠ o) : regGet (regSet reg o l) o' = regGet reg o' := by
  have hb' : (o == o') = false := by simpa using Ne.symm h
  induction reg with
  | nil => simp [regSet, regGet, hb']
  | cons p t ih =>
    obtain ⟨k, v⟩ := p
    by_cases hk : k = o
    · subst hk
      simp [regSet, regGet, hb']
    · have hb : (k == o) = false := by simpa using hk
      by_cases hk' : k = o'
      · subst hk'
        simp [regSet, regGet, hb]
      · have hb2 : (k == o') = false := by simpa using hk'
        simp [regSet, regGet, hb, hb2, ih]

lemma regGet_regDel_self (reg : Registry) (o : String) :
    regGet (regDel reg o) o = [] := by
  induction reg with
  | nil => simp [regDel, regGet]
  | cons p t ih =>
    obtain ⟨k, v⟩ := p
    by_cases h : k = o
    · subst h
      simp [regDel, ih]
    · have hb : (k == o) = false := by simpa using h
      simp [regDel, regGet, hb, ih]

lemma regGet_regDel_other (reg : Registry) (o o' : String) (h : o' ≠ o) :
    regGet (regDel reg o) o' = regGet reg o' := by
  induction reg with
  | nil => simp [regDel, regGet]
  | cons p t ih =>
    obtain ⟨k, v⟩ := p
    by_cases hk : k = o
    · subst hk
      have hb : (k == o') = false := by simpa using Ne.symm h
      simp [regDel, regGet, hb, ih]
    · have hb : (k == o) = false := by simpa using hk
      by_cases hk' : k = o'
      · subst hk'
        simp [regDel, regGet, hb]
      · have hb2 : (k == o') = false := by simpa using hk'
        simp [regDel, regGet, hb, hb2, ih]

/-- The per-owner connection cap, as a predicate on registry states. -/
def SSEInv (st : Registry × Nat) : Prop :=
  ∀ o, (regGet st.1 o).length ≤ 3

lemma sseStep_inv (st : Registry × Nat) (op : SSEOp) (inv : SSEInv st) :
    SSEInv (sseStep st op) := by
  cases op with
  | reg o =>
    by_cases h3 : 3 ≤ (regGet st.1 o).length
    · have hreg : register_connection st.1 st.2 o = .error "too many connections" := by
        simp [register_connection, h3]
      simpa [sseStep, hreg] using inv
    · have hreg : register_connection st.1 st.2 o =
          .ok (regSet st.1 o (regGet st.1 o ++ [st.2]), st.2) := by
        simp [register_connection, h3]
      simp only [sseStep, hreg]
      intro o'
      by_cases ho : o' = o
      · subst ho
        rw [regGet_regSet_self]
        simp only [List.length_append, List.length_singleton]
        omega
      · rw [regGet_regSet_other _ _ _ _ ho]
        exact inv o'
  | unreg o cid =>
    simp only [sseStep, unregister_connection]
    by_cases hh : regHas st.1 o
    · rw [if_pos hh]
      by_cases he : ((regGet st.1 o).erase cid).isEmpty
      · rw [if_pos he]
        intro o'
        by_cases ho : o' = o
        · rw [ho, regGet_regDel_self]
          simp
        · rw [regGet_regDel_other _ _ _ ho]
          exact inv o'
      · rw [if_neg he]
        intro o'
        by_cases ho : o' = o
        · rw [ho, regGet_regSet_self]
          calc ((regGet st.1 o).erase cid).length
              ≤ (regGet st.1 o).length :=
                ((regGet st.1 o).erase_sublist cid).length_le
            _ ≤ 3 := inv o
        · rw [regGet_regSet_other _ _ _ _ ho]
          exact inv o'
    · rw [if_neg hh]
      exact inv

lemma runSSE_inv (ops : List SSEOp) :
    ∀ st, SSEInv st → SSEInv (ops.foldl sseStep st) := by
  induction ops with
  | nil => intro st h; exact h
  | cons op ops ih =>
    intro st h
    exact ih _ (sseStep_inv st op h)

/-- C3: under any trace of stream registrations and disconnects, no owner
ever holds more than 3 live SSE connections; on a within-cap registry,
register_connection raises exactly when the owner already has 3
connections, a successful registration grows that owner's set by exactly
one connection and touches no other owner, and the stream endpoint maps
the raised ValueError to HTTP 429. -/
theorem c3_connection_cap :
    (∀ (ops : List SSEOp) (o : String), (regGet (runSSE ops).1 o).length ≤ 3) ∧
    (∀ (reg : Registry) (n : Nat) (o : String), (regGet reg o).length ≤ 3 →
      (register_connection reg n o = .error "too many connections" ↔
        (regGet reg o).length = 3)) ∧
    (∀ (reg : Registry) (n : Nat) (o : String) (reg' : Registry) (cid : Nat),
      register_connection reg n o = .ok (reg', cid) →
      (regGet reg' o).length = (regGet reg o).length + 1 ∧
      ∀ o', o' ≠ o → regGet reg' o' = regGet reg o') ∧
    (∀ (reg : Registry) (n : Nat) (o : String), (regGet reg o).length = 3 →
      notification_stream reg n o = .error 429) := by
  refine ⟨?_, ?_, ?_, ?_⟩
  · intro ops o
    exact runSSE_inv ops ([], 0) (fun o' => by simp [regGet]) o
  · intro reg n o hle
    by_cases h3 : 3 ≤ (regGet reg o).length
    · simp only [register_connection, if_pos h3]
      constructor
      · intro _; omega
      · intro _; trivial
    · simp only [register_connection, if_neg h3]
      constructor
      · intro h; exact Except.noConfusion h
      · intro h; omega
  · intro reg n o reg' cid h
    by_cases h3 : 3 ≤ (regGet reg o).length
    · rw [register_connection, if_pos h3] at h
      exact Except.noConfusion h
    · rw [register_connection, if_neg h3] at h
      have h' := Except.ok.inj h
      have hr : reg' = regSet reg o (regGet reg o ++ [n]) :=
        (congrArg Prod.fst h').symm
      subst hr
      refine ⟨?_, ?_⟩
      · rw [regGet_regSet_self]
        simp
      · intro o' ho
        exact regGet_regSet_other _ _ _ _ ho
  · intro reg n o h3
    simp [notification_stream, register_connection, h3]

/-- C3 witness: three successful registrations for U1 stay within the cap;
with U1 at three connections a further register raises and the stream
endpoint returns 429; a registration for a fresh owner adds exactly one
connection. -/
theorem c3_witness :
    (regGet (runSSE [SSEOp.reg "U1", SSEOp.reg "U1", SSEOp.reg "U1",
        SSEOp.reg "U1"]).1 "U1").length ≤ 3 ∧
    register_connection [("U1", [0, 1, 2])] 3 "U1" =
      .error "too many connections" ∧
    notification_stream [("U1", [0, 1, 2])] 3 "U1" = .error 429 ∧
    (regGet (regSet [("U1", [0])] "U2" (regGet [("U1", [0])] "U2" ++ [1]))
        "U2").length =
      (regGet [("U1", [0])] "U2").length + 1 := by
  refine ⟨?_, ?_, ?_, ?_⟩
  · exact c3_connection_cap.1 [SSEOp.reg "U1", SSEOp.reg "U1", SSEOp.reg "U1",
      SSEOp.reg "U1"] "U1"
  · exact (c3_connection_cap.2.1 [("U1", [0, 1, 2])] 3 "U1" (by decide)).2
      (by decide)
  · exact c3_connection_cap.2.2.2 [("U1", [0, 1, 2])] 3 "U1" (by decide)
  · exact (c3_connection_cap.2.2.1 [("U1", [0])] 1 "U2" _ 1 rfl).1

/- ===================================================================
   Claim C1 (audit idempotence)
   =================================================================== -/

/-- The rows of the audit store carry pairwise distinct event ids. -/
def auditKeysNodup (db : List AuditRow) : Prop :=
  (db.map (fun r => r.event_id)).Nodup

lemma insertDedup_nodup {db : List AuditRow} (h : auditKeysNodup db)
    (r : AuditRow) : auditKeysNodup (insertDedup db r) := by
  unfold insertDedup
  by_cases ha : db.any (fun x => x.event_id == r.event_id)
  · rw [if_pos ha]
    exact h
  · rw [if_neg ha]
    unfold auditKeysNodup at h ⊢
    rw [List.map_append, List.nodup_append]
    refine ⟨h, by simp, ?_⟩
    intro a hma hmb
    simp only [List.map_cons, List.map_nil, List.mem_singleton] at hmb
    subst hmb
    apply ha
    rw [List.any_eq_true]
    rw [List.mem_map] at hma
    obtain ⟨x, hx, hxe⟩ := hma
    exact ⟨x, hx, by simp [hxe]⟩

lemma foldl_insertDedup_nodup :
    ∀ (buf : List AuditRow) (db : List AuditRow), auditKeysNodup db →
      auditKeysNodup (buf.foldl insertDedup db) := by
  intro buf
  induction buf with
  | nil => intro db h; exact h
  | cons r t ih =>
    intro db h
    exact ih _ (insertDedup_nodup h r)

lemma auditStep_nodup {st : AuditState} (h : auditKeysNodup st.db)
    (op : AuditOp) : auditKeysNodup (auditStep st op).db := by
  cases op with
  | deliver now eid ety tid uid pl cid =>
    simp only [auditStep, audit_write_event]
    by_cases hb : 100 ≤ (st.buffer ++
        [writeEventRow now eid ety tid uid pl cid]).length
    · rw [if_pos hb]
      exact foldl_insertDedup_nodup _ _ h
    · rw [if_neg hb]
      exact h
  | flushTick =>
    exact foldl_insertDedup_nodup _ _ h

lemma runAudit_nodup (ops : List AuditOp) : auditKeysNodup (runAudit ops).db := by
  suffices h : ∀ st : AuditState, auditKeysNodup st.db →
      auditKeysNodup (ops.foldl auditStep st).db by
    exact h { buffer := [], db := [] } (by simp [auditKeysNodup])
  induction ops with
  | nil => intro st h; exact h
  | cons op ops ih =>
    intro st h
    exact ih _ (auditStep_nodup h op)

lemma nodup_key_countP_le_one (db : List AuditRow) (h : auditKeysNodup db)
    (e : String) : db.countP (fun r => r.event_id == e) ≤ 1 := by
  induction db with
  | nil => simp
  | cons r t ih =>
    unfold auditKeysNodup at h
    rw [List.map_cons, List.nodup_cons] at h
    obtain ⟨hnm, ht⟩ := h
    rw [List.countP_cons]
    by_cases he : (r.event_id == e) = true
    · have hz : t.countP (fun x => x.event_id == e) = 0 := by
        rw [List.countP_eq_zero]
        intro x hx
        simp only [beq_iff_eq] at he ⊢
        intro hxe
        exact hnm (List.mem_map.2 ⟨x, hx, by rw [hxe, he]⟩)
      simp [he, hz]
    · simp only [he, if_false, Nat.add_zero]
      exact ih ht

lemma get_task_events_nodup (db : List AuditRow) (h : auditKeysNodup db)
    (task_id : String) (limit : Nat) :
    auditKeysNodup (get_task_events db task_id limit) := by
  unfold auditKeysNodup at h ⊢
  unfold get_task_events
  have h1 : ((db.filter (fun r => r.task_id == task_id)).map
      (fun r => r.event_id)).Nodup :=
    List.Nodup.sublist (List.Sublist.map _ (List.filter_sublist db)) h
  have h2 : (((db.filter (fun r => r.task_id == task_id)).mergeSort
      (fun a b => a.timestamp.leb b.timestamp)).map
      (fun r => r.event_id)).Nodup := by
    refine (List.Perm.nodup_iff (List.Perm.map _ ?_)).2 h1
    exact List.mergeSort_perm _ _
  exact List.Nodup.sublist (List.Sublist.map _ (List.take_sublist _ _)) h2

/-- C1: whatever sequence of event deliveries and buffer flushes the audit
ingestor processes, the store never holds two records with the same event
id, and a task-history query result never lists an event id twice. -/
theorem c1_audit_query_dedup (ops : List AuditOp) (e task_id : String)
    (limit : Nat) :
    (runAudit ops).db.countP (fun r => r.event_id == e) ≤ 1 ∧
    (get_task_events (runAudit ops).db task_id limit).countP
      (fun r => r.event_id == e) ≤ 1 := by
  refine ⟨?_, ?_⟩
  · exact nodup_key_countP_le_one _ (runAudit_nodup ops) e
  · exact nodup_key_countP_le_one _
      (get_task_events_nodup _ (runAudit_nodup ops) task_id limit) e

/- ===================================================================
   Claim C10 (offset parsing matches a prefix)
   =================================================================== -/

/-- C10 counterexample: the claim states that every string not beginning
with a digit yields no offset, but parse_reminder_offset strips the input
first, so " 1 hour" (leading space, no leading digit) parses to one
hour. -/
theorem c10_counterexample :
    beginsWithDigit " 1 hour" = false ∧
    parse_reminder_offset " 1 hour" = some 3600 := by
  constructor
  · decide
  · decide

lemma matchUnit_unitTokens :
    ∀ tok sec, (tok, sec) ∈ unitTokens →
      ∀ rest, matchUnit (tok ++ rest) = some sec := by
  intro tok sec htok rest
  unfold unitTokens at htok
  fin_cases htok
  all_goals try rfl
  -- the spelling "min": the alternatives minute/minutes can also match,
  -- depending on the trailing text, but they carry the same duration
  show (if isPfx ['u', 't', 'e'] rest then some 60
        else if isPfx ['u', 't', 'e', 's'] rest then some 60
        else some 60) = some 60
  by_cases h1 : isPfx ['u', 't', 'e'] rest = true
  · rw [if_pos h1]
  · rw [if_neg h1]
    by_cases h2 : isPfx ['u', 't', 'e', 's'] rest = true
    · rw [if_pos h2]
    · rw [if_neg h2]

lemma unitTokens_shape :
    ∀ tok sec, (tok, sec) ∈ unitTokens →
      tok ≠ [] ∧ (tok.headD 'x').isDigit = false ∧
        (tok.headD 'x').isWhitespace = false := by
  intro tok sec htok
  unfold unitTokens at htok
  fin_cases htok <;> exact ⟨by decide, by decide, by decide⟩

lemma takeWhile_append_all {p : Char → Bool} :
    ∀ {l1 l2 : List Char}, (∀ c ∈ l1, p c = true) →
      (l1 ++ l2).takeWhile p = l1 ++ l2.takeWhile p := by
  intro l1
  induction l1 with
  | nil => intro l2 _; simp
  | cons c t ih =>
    intro l2 h
    have hc : p c = true := h c (List.mem_cons_self c t)
    simp only [List.cons_append, List.takeWhile_cons, hc, if_true]
    rw [ih (fun x hx => h x (List.mem_cons_of_mem c hx))]

lemma dropWhile_append_all {p : Char → Bool} :
    ∀ {l1 l2 : List Char}, (∀ c ∈ l1, p c = true) →
      (l1 ++ l2).dropWhile p = l2.dropWhile p := by
  intro l1
  induction l1 with
  | nil => intro l2 _; simp
  | cons c t ih =>
    intro l2 h
    have hc : p c = true := h c (List.mem_cons_self c t)
    simp only [List.cons_append, List.dropWhile_cons, hc, if_true]
    exact ih (fun x hx => h x (List.mem_cons_of_mem c hx))

lemma isWhitespace_not_isDigit {c : Char} (h : c.isWhitespace = true) :
    c.isDigit = false := by
  have h' : ((c = ' ' ∨ c = '\t') ∨ c = '\r') ∨ c = '\n' := by
    simpa [Char.isWhitespace, or_assoc] using h
  rcases h' with ((rfl | rfl) | rfl) | rfl <;> decide

lemma parse_prefix_general (tok : List Char) (sec : Int)
    (hne : tok ≠ []) (hd : (tok.headD 'x').isDigit = false)
    (hw : (tok.headD 'x').isWhitespace = false)
    (hmu : ∀ rest, matchUnit (tok ++ rest) = some sec) :
    ∀ (s : String) (ds sp rest : List Char),
      pyLower (pyStrip s.toList) = ds ++ (sp ++ (tok ++ rest)) →
      ds ≠ [] → (∀ c ∈ ds, c.isDigit = true) →
      (∀ c ∈ sp, c.isWhitespace = true) →
      parse_reminder_offset s = some ((digitsToNat ds : Int) * sec) := by
  intro s ds sp rest hnorm hds hdig hws
  obtain ⟨c, t, rfl⟩ := List.exists_cons_of_ne_nil hne
  simp only [List.headD_cons] at hd hw
  have htail : (sp ++ (c :: t ++ rest)).takeWhile Char.isDigit = [] := by
    cases sp with
    | nil =>
      simp only [List.nil_append, List.cons_append, List.takeWhile_cons, hd]
      rfl
    | cons a sp' =>
      have ha := isWhitespace_not_isDigit (hws a (List.mem_cons_self a sp'))
      simp only [List.cons_append, List.takeWhile_cons, ha]
      rfl
  have hdrop1 : (sp ++ (c :: t ++ rest)).dropWhile Char.isDigit =
      sp ++ (c :: t ++ rest) := by
    cases sp with
    | nil =>
      simp only [List.nil_append, List.cons_append, List.dropWhile_cons, hd]
      rfl
    | cons a sp' =>
      have ha := isWhitespace_not_isDigit (hws a (List.mem_cons_self a sp'))
      simp only [List.cons_append, List.dropWhile_cons, ha]
      rfl
  have hdrop2 : (sp ++ (c :: t ++ rest)).dropWhile Char.isWhitespace =
      c :: t ++ rest := by
    rw [dropWhile_append_all hws]
    simp only [List.cons_append, List.dropWhile_cons, hw]
    rfl
  simp only [parse_reminder_offset, parseNormalized]
  rw [hnorm, takeWhile_append_all hdig, htail, List.append_nil,
    dropWhile_append_all hdig, hdrop1, hdrop2]
  have hne' : ds.isEmpty = false := by
    cases ds with
    | nil => exact absurd rfl hds
    | cons a l => rfl
  rw [hne']
  have := hmu rest
  rw [List.cons_append] at this
  simp [this]

/-- C10 amended: parse_reminder_offset matches only a prefix of the
stripped, lowercased input: whenever that normalized form is a nonempty
digit run, optional whitespace, a unit spelling and arbitrary trailing
text, parsing succeeds with value digits times unit and the trailing text
is ignored (so "45 mins before due" parses as 45 minutes), and whenever
the normalized form does not begin with a digit the parse returns none. -/
theorem c10_prefix_parse :
    (∀ tok sec, (tok, sec) ∈ unitTokens →
      ∀ (s : String) (ds sp rest : List Char),
        pyLower (pyStrip s.toList) = ds ++ (sp ++ (tok ++ rest)) →
        ds ≠ [] → (∀ c ∈ ds, c.isDigit = true) →
        (∀ c ∈ sp, c.isWhitespace = true) →
        parse_reminder_offset s = some ((digitsToNat ds : Int) * sec)) ∧
    (∀ s : String, ((pyLower (pyStrip s.toList)).headD 'x').isDigit = false →
      parse_reminder_offset s = none) := by
  constructor
  · intro tok sec htok
    obtain ⟨h1, h2, h3⟩ := unitTokens_shape tok sec htok
    exact parse_prefix_general tok sec h1 h2 h3 (matchUnit_unitTokens tok sec htok)
  · intro s h
    simp only [parse_reminder_offset, parseNormalized]
    cases hl : pyLower (pyStrip s.toList) with
    | nil => simp
    | cons c t =>
      rw [hl] at h
      simp only [List.headD_cons] at h
      simp [List.takeWhile_cons, h]

/-- C10 witness: "45 mins before due" parses as 45 minutes with the
trailing text ignored, and "tomorrow" (no leading digit) parses to
none. -/
theorem c10_witness :
    parse_reminder_offset "45 mins before due" = some 2700 ∧
    parse_reminder_offset "tomorrow" = none := by
  constructor
  · have h := c10_prefix_parse.1 ("mins".toList) 60 (by decide)
      "45 mins before due" ['4', '5'] [' '] (" before due".toList)
      (by decide) (by decide) (by decide) (by decide)
    exact h.trans (by decide)
  · exact c10_prefix_parse.2 "tomorrow" (by decide)

/- ===================================================================
   Claim C4 (per-connection rolling-window rate limit)
   =================================================================== -/

lemma purgeWindow_mem (now : ℚ) :
    ∀ (l : List ℚ), ∀ s ∈ purgeWindow now l, s ∈ l := by
  intro l
  induction l with
  | nil => intro s hs; simp [purgeWindow] at hs
  | cons t ts ih =>
    intro s hs
    by_cases hc : 1 < now - t
    · rw [purgeWindow, if_pos hc] at hs
      exact List.mem_cons_of_mem t (ih s hs)
    · rw [purgeWindow, if_neg hc] at hs
      exact hs

lemma purgeWindow_length (now : ℚ) :
    ∀ (l : List ℚ), (purgeWindow now l).length ≤ l.length := by
  intro l
  induction l with
  | nil => simp [purgeWindow]
  | cons t ts ih =>
    by_cases hc : 1 < now - t
    · rw [purgeWindow, if_pos hc]
      exact le_trans ih (by simp)
    · rw [purgeWindow, if_neg hc]

lemma purgeWindow_sorted (now : ℚ) :
    ∀ (l : List ℚ), l.Sorted (· ≤ ·) → (purgeWindow now l).Sorted (· ≤ ·) := by
  intro l
  induction l with
  | nil => intro h; exact h
  | cons t ts ih =>
    intro h
    by_cases hc : 1 < now - t
    · rw [purgeWindow, if_pos hc]
      exact ih (List.sorted_cons.1 h).2
    · rw [purgeWindow, if_neg hc]
      exact h

lemma purgeWindow_countP (now c : ℚ) (hc : now - 1 ≤ c) :
    ∀ (l : List ℚ),
      (purgeWindow now l).countP (fun s => decide (c ≤ s)) =
        l.countP (fun s => decide (c ≤ s)) := by
  intro l
  induction l with
  | nil => simp [purgeWindow]
  | cons t ts ih =>
    by_cases hd : 1 < now - t
    · rw [purgeWindow, if_pos hd, List.countP_cons]
      have ht : ¬ c ≤ t := by linarith
      simp [ht, ih]
    · rw [purgeWindow, if_neg hd]

lemma recordAppend_of_le_nine {l : List ℚ} (h : l.length ≤ 9) (now : ℚ) :
    recordAppend l now = l ++ [now] := by
  show (l ++ [now]).drop ((l ++ [now]).length - 10) = l ++ [now]
  have hz : (l ++ [now]).length - 10 = 0 := by
    simp only [List.length_append, List.length_singleton]
    omega
  rw [hz, List.drop_zero]

lemma runAttempts_window_aux :
    ∀ (ts : List ℚ) (t0 : ℚ) (limiter D : List ℚ),
      limiter.length ≤ 10 →
      limiter.Sorted (· ≤ ·) →
      (∀ s ∈ limiter, s ≤ t0) →
      (∀ s ∈ D, s ≤ t0) →
      (∀ c : ℚ, t0 - 1 ≤ c →
        D.countP (fun s => decide (c ≤ s)) =
          limiter.countP (fun s => decide (c ≤ s))) →
      (∀ w : ℚ, windowCount w D ≤ 10) →
      ts.Sorted (· ≤ ·) → (∀ x ∈ ts, t0 ≤ x) →
      ∀ w, windowCount w (D ++ (runAttempts limiter ts).2) ≤ 10 := by
  intro ts
  induction ts with
  | nil =>
    intro t0 limiter D _ _ _ _ _ hwin _ _ w
    simpa [runAttempts] using hwin w
  | cons t ts ih =>
    intro t0 limiter D hlen hsort hlim hD hcnt hwin hts hlb w
    have ht0 : t0 ≤ t := hlb t (List.mem_cons_self t ts)
    have hts_tail : ts.Sorted (· ≤ ·) := (List.sorted_cons.1 hts).2
    have hts_lb : ∀ x ∈ ts, t ≤ x := (List.sorted_cons.1 hts).1
    have hpmem := purgeWindow_mem t limiter
    have hplen := purgeWindow_length t limiter
    have hpsort := purgeWindow_sorted t limiter hsort
    have hple : ∀ s ∈ purgeWindow t limiter, s ≤ t :=
      fun s hs => le_trans (hlim s (hpmem s hs)) ht0
    have hDle : ∀ s ∈ D, s ≤ t := fun s hs => le_trans (hD s hs) ht0
    have hcnt' : ∀ c : ℚ, t - 1 ≤ c →
        D.countP (fun s => decide (c ≤ s)) =
          (purgeWindow t limiter).countP (fun s => decide (c ≤ s)) := by
      intro c hc
      rw [hcnt c (by linarith), purgeWindow_countP t c hc]
    by_cases hfull : 10 ≤ (purgeWindow t limiter).length
    · have ha : attemptSend limiter t = (purgeWindow t limiter, false) := by
        simp [attemptSend, hfull]
      have h2 : (runAttempts limiter (t :: ts)).2 =
          (runAttempts (purgeWindow t limiter) ts).2 := by
        simp [runAttempts, ha]
      rw [h2]
      exact ih t (purgeWindow t limiter) D (le_trans hplen hlen) hpsort hple
        hDle hcnt' hwin hts_tail hts_lb w
    · have hnine : (purgeWindow t limiter).length ≤ 9 := by omega
      have ha : attemptSend limiter t = (purgeWindow t limiter ++ [t], true) := by
        simp [attemptSend, hfull, recordAppend_of_le_nine hnine]
      have h2 : (runAttempts limiter (t :: ts)).2 =
          t :: (runAttempts (purgeWindow t limiter ++ [t]) ts).2 := by
        simp [runAttempts, ha]
      rw [h2]
      have hassoc : D ++ t :: (runAttempts (purgeWindow t limiter ++ [t]) ts).2 =
          (D ++ [t]) ++ (runAttempts (purgeWindow t limiter ++ [t]) ts).2 := by
        simp
      rw [hassoc]
      refine ih t (purgeWindow t limiter ++ [t]) (D ++ [t]) ?_ ?_ ?_ ?_ ?_ ?_
        hts_tail hts_lb w
      · simp only [List.length_append, List.length_singleton]
        omega
      · rw [List.Sorted, List.pairwise_append]
        refine ⟨hpsort, by simp, ?_⟩
        intro a ha' b hb
        rw [List.mem_singleton] at hb
        subst hb
        exact hple a ha'
      · intro s hs
        rcases List.mem_append.1 hs with hs' | hs'
        · exact hple s hs'
        · rw [List.mem_singleton] at hs'
          subst hs'
          exact le_refl s
      · intro s hs
        rcases List.mem_append.1 hs with hs' | hs'
        · exact hDle s hs'
        · rw [List.mem_singleton] at hs'
          subst hs'
          exact le_refl s
      · intro c hc
        rw [List.countP_append, List.countP_append, hcnt' c hc]
      · intro v
        unfold windowCount
        rw [List.countP_append]
        by_cases hin : v - 1 ≤ t ∧ t ≤ v
        · have hmono : D.countP (fun s => decide (v - 1 ≤ s ∧ s ≤ v)) ≤
              D.countP (fun s => decide (t - 1 ≤ s)) := by
            apply List.countP_mono_left
            intro a _ hp
            rw [decide_eq_true_eq] at hp
            rw [decide_eq_true_eq]
            obtain ⟨hp1, hp2⟩ := hp
            have := hin.2
            linarith
          have hDv : D.countP (fun s => decide (v - 1 ≤ s ∧ s ≤ v)) ≤ 9 := by
            calc D.countP (fun s => decide (v - 1 ≤ s ∧ s ≤ v))
                ≤ D.countP (fun s => decide (t - 1 ≤ s)) := hmono
              _ = (purgeWindow t limiter).countP (fun s => decide (t - 1 ≤ s)) :=
                hcnt' (t - 1) (le_refl _)
              _ ≤ (purgeWindow t limiter).length := List.countP_le_length _
              _ ≤ 9 := hnine
          have hone : List.countP (fun s => decide (v - 1 ≤ s ∧ s ≤ v)) [t] ≤ 1 :=
            le_trans (List.countP_le_length _) (by simp)
          omega
        · have hz : List.countP (fun s => decide (v - 1 ≤ s ∧ s ≤ v)) [t] = 0 := by
            simp only [List.countP_cons, List.countP_nil, decide_eq_false hin]
            rfl
          rw [hz]
          have := hwin v
          unfold windowCount at this
          omega

lemma send_notification_spec (now : ℚ) (notif : String) :
    ∀ conns : List SSEConnState,
      (send_notification now notif conns).2 =
        conns.countP (fun c => (attemptSend c.rate_limiter now).2) ∧
      (∀ pr ∈ conns.zip (send_notification now notif conns).1,
        if (attemptSend pr.1.rate_limiter now).2 = true
        then pr.2.queue = pr.1.queue ++ [notif]
        else pr.2.queue = pr.1.queue) := by
  intro conns
  induction conns with
  | nil => simp [send_notification]
  | cons c cs ih =>
    by_cases hb : (attemptSend c.rate_limiter now).2 = true
    · constructor
      · simp only [send_notification, hb, if_true, List.countP_cons, hb]
        rw [ih.1]
        omega
      · intro pr hpr
        simp only [send_notification, hb, if_true, List.zip_cons_cons,
          List.mem_cons] at hpr
        rcases hpr with rfl | hpr'
        · simp [hb]
        · exact ih.2 pr hpr'
    · constructor
      · simp only [send_notification, hb, if_false, List.countP_cons, hb]
        rw [ih.1]
        omega
      · intro pr hpr
        simp only [send_notification, hb, if_false, List.zip_cons_cons,
          List.mem_cons] at hpr
        rcases hpr with rfl | hpr'
        · simp [hb]
        · exact ih.2 pr hpr'

/-- C4: on every SSE connection, any closed 1-second window contains at
most 10 delivered notifications, for every chronological (nondecreasing)
sequence of delivery attempts; and send_notification returns exactly the
number of connections on which it enqueued the notification (rate-limited
connections are skipped and not counted). -/
theorem c4_rolling_window_limit :
    (∀ ts : List ℚ, ts.Sorted (· ≤ ·) →
      ∀ w, windowCount w (runAttempts [] ts).2 ≤ 10) ∧
    (∀ (now : ℚ) (notif : String) (conns : List SSEConnState),
      (send_notification now notif conns).2 =
        conns.countP (fun c => (attemptSend c.rate_limiter now).2) ∧
      (∀ pr ∈ conns.zip (send_notification now notif conns).1,
        if (attemptSend pr.1.rate_limiter now).2 = true
        then pr.2.queue = pr.1.queue ++ [notif]
        else pr.2.queue = pr.1.queue)) := by
  constructor
  · intro ts hs w
    cases ts with
    | nil => simp [runAttempts, windowCount]
    | cons t ts' =>
      have hlb : ∀ x ∈ t :: ts', t ≤ x := by
        intro x hx
        rcases List.mem_cons.1 hx with rfl | hx'
        · exact le_refl x
        · exact (List.sorted_cons.1 hs).1 x hx'
      have h := runAttempts_window_aux (t :: ts') t [] [] (by simp) (by simp)
        (by simp) (by simp) (fun c hc => by simp) (fun v => by simp [windowCount])
        hs hlb w
      simpa using h
  · intro now notif conns
    exact send_notification_spec now notif conns

/-- C4 witness: twelve delivery attempts at the same instant let exactly
the first ten through, so the window ending there holds 10 deliveries, and
send_notification over one fresh connection reports one delivery. -/
theorem c4_witness :
    windowCount 0 (runAttempts []
      [0, 0, 0, 0, 0, 0, 0, 0, 0, 0, 0, 0]).2 ≤ 10 ∧
    (send_notification 0 "n"
      [{ queue := [], rate_limiter := [], message_count := 0 }]).2 =
      List.countP (fun c => (attemptSend c.rate_limiter 0).2)
        [({ queue := [], rate_limiter := [], message_count := 0 } : SSEConnState)] := by
  constructor
  · exact c4_rolling_window_limit.1 [0, 0, 0, 0, 0, 0, 0, 0, 0, 0, 0, 0]
      (by norm_num [List.sorted_cons]) 0
  · exact (c4_rolling_window_limit.2 0 "n"
      [{ queue := [], rate_limiter := [], message_count := 0 }]).1

end Todo
